import Mathlib

/-!
Verification of the crawl engine and content-extraction pipeline of a
Selenium-based web scraper (`scraper.py`: `scrape_website`, `crawl_website`).

The embedding models:
* Python string normalization used on frontier URLs (`rstrip('/')`,
  `split('#')[0]`),
* the relevant behavior of `urllib.parse` (`urlparse` scheme/netloc fields,
  `urljoin`) for the URL shapes the scraper handles,
* the rendered DOM as a tree, together with the BeautifulSoup operations the
  scraper calls (`find_all`, `find`, `get_text(strip=True)`, `get`,
  `prettify`),
* the per-page section extraction shared by `scrape_website` (beautify mode)
  and the crawl loop,
* the crawl loop itself (frontier queue, visited set, page budget, per-page
  exception handling) as a state-passing function.

Effects are modelled explicitly: a fetch environment maps each URL to the
outcome of the `try:` block body for that page (success with a rendered page,
an exception before `all_data.append(page_data)` — i.e. during
`driver.get`/parsing — or an exception after the append, during Selenium link
discovery, which only `type == "beautify"` executes).  Driver provisioning
(`initialize_driver`) is modelled by a boolean, and the `finally:
driver.quit()` blocks by an explicit open/close trace.
-/

set_option linter.unusedVariables false

namespace Scraper

/-! ## Python string primitives used by the scraper -/

/-- Python `s.rstrip('/')`: remove every trailing `'/'` character.  Used on
the seed URL (`to_visit = [base_url.rstrip('/')]`) and on discovered links. -/
def rstripSlashes (s : String) : String :=
  String.mk ((s.toList.reverse.dropWhile (fun c => c == '/')).reverse)

/-- Python `s.split('#')[0]`: the part of the string before the first `'#'`.
Used to drop fragment identifiers from anchors and discovered links. -/
def splitHash (s : String) : String :=
  String.mk (s.toList.takeWhile (fun c => c != '#'))

/-- The normalization applied to a discovered link before it is enqueued:
`absolute_link.split('#')[0].rstrip('/')`. -/
def normalizeLink (s : String) : String :=
  rstripSlashes (splitHash s)

/-! ## A model of `urllib.parse` for the URL shapes the scraper handles -/

/-- Validity of a scheme prefix as accepted by `urllib.parse`: a letter
followed by letters, digits, `'+'`, `'-'` or `'.'`. -/
def schemeCharsOK : List Char → Bool
  | [] => false
  | c :: cs => c.isAlpha && cs.all fun d => d.isAlpha || d.isDigit || d == '+' || d == '-' || d == '.'

/-- Split a URL into its (lowercased) scheme and the remainder after the
colon; the scheme is empty when the URL has none. -/
def splitScheme (s : String) : String × String :=
  let l := s.toList
  let pre := l.takeWhile (fun c => c != ':')
  if pre.length < l.length ∧ schemeCharsOK pre = true then
    (String.mk (pre.map Char.toLower), String.mk (l.drop (pre.length + 1)))
  else ("", s)

/-- Model of `urlparse(s).scheme`. -/
def schemeOf (s : String) : String := (splitScheme s).1

/-- Split a URL into scheme, netloc and the rest after the netloc; the netloc
is present only when the part after the scheme starts with `//`, and extends
to the next `'/'`, `'?'` or `'#'`, as in `urllib.parse`. -/
def splitNetloc (s : String) : String × String × String :=
  let (sch, rest) := splitScheme s
  match rest.toList with
  | '/' :: '/' :: t =>
      let nl := t.takeWhile fun c => c != '/' && c != '?' && c != '#'
      (sch, String.mk nl, String.mk (t.drop nl.length))
  | _ => (sch, "", rest)

/-- Model of `urlparse(s).netloc`. -/
def netlocOf (s : String) : String := (splitNetloc s).2.1

/-- The part of `s` strictly before the first occurrence of `c`. -/
def stripAfter (c : Char) (s : String) : String :=
  String.mk (s.toList.takeWhile (fun d => d != c))

/-- Model of `urllib.parse.urljoin(base, url)` covering the reference shapes
the scraper produces: empty references, absolute URLs (same or different
scheme), network-path (`//…`), absolute-path (`/…`), fragment-only (`#…`) and
plain relative references resolved against the directory of the base path. -/
def urljoin (base url : String) : String :=
  if url = "" then base
  else
    let us := splitScheme url
    let bsch := schemeOf base
    if us.1 ≠ "" ∧ us.1 ≠ bsch then url
    else
      let sch := if us.1 = "" then bsch else us.1
      let schPre := if sch = "" then "" else sch ++ ":"
      let r := if us.1 = "" then url else us.2
      match r.toList with
      | '/' :: '/' :: _ => schPre ++ r
      | '/' :: _ => schPre ++ "//" ++ netlocOf base ++ r
      | '#' :: _ => stripAfter '#' base ++ r
      | _ =>
          let bits := splitNetloc base
          let bp := stripAfter '?' (stripAfter '#' bits.2.2)
          let dir := if bp.toList.contains '/'
                     then String.mk ((bp.toList.reverse.dropWhile (fun c => c != '/')).reverse)
                     else "/"
          schPre ++ "//" ++ bits.2.1 ++ dir ++ r

/-- Python `str.strip()` (and the per-string stripping of
`get_text(strip=True)`): drop leading and trailing whitespace. -/
def pyStrip (s : String) : String :=
  String.mk (((s.toList.dropWhile Char.isWhitespace).reverse.dropWhile
    Char.isWhitespace).reverse)

/-! ## The rendered DOM and the BeautifulSoup operations the scraper calls -/

mutual
/-- A node of the parsed document: an element with tag name, attributes and
children, or a text node.  A whole parsed document (the soup) is represented
as an element with the BeautifulSoup document tag `"[document]"`. -/
inductive Node where
  | elem (tag : String) (attrs : List (String × String)) (children : NodeList)
  | text (s : String)

/-- Children lists, as a mutual inductive so that the DOM traversals below
are structurally recursive. -/
inductive NodeList where
  | nil
  | cons (head : Node) (tail : NodeList)
end

/-- Build a `NodeList` from a `List Node` (notation helper for literals). -/
def nodes : List Node → NodeList
  | [] => .nil
  | n :: rest => .cons n (nodes rest)

mutual
/-- All elements with a tag in `tags` in the subtree rooted at a node,
including the node itself, in document (pre-)order. -/
def findTagsNode (tags : List String) : Node → List Node
  | .text _ => []
  | .elem t a cs => (if t ∈ tags then [Node.elem t a cs] else []) ++ findTagsList tags cs

/-- All elements with a tag in `tags` in a forest, in document order. -/
def findTagsList (tags : List String) : NodeList → List Node
  | .nil => []
  | .cons n rest => findTagsNode tags n ++ findTagsList tags rest
end

/-- BeautifulSoup `node.find_all(tags)`: all matching elements among the
strict descendants of `node`, in document order. -/
def findAllIn (tags : List String) : Node → List Node
  | .text _ => []
  | .elem _ _ cs => findTagsList tags cs

/-- BeautifulSoup `node.find(tags)`: the first matching descendant. -/
def findIn (tags : List String) (n : Node) : Option Node :=
  (findAllIn tags n).head?

mutual
/-- BeautifulSoup `node.get_text(strip=True)`: each descendant string
stripped of surrounding whitespace and concatenated. -/
def getTextNode : Node → String
  | .text s => pyStrip s
  | .elem _ _ cs => getTextList cs

/-- Model of `get_text(strip=True)` over a forest. -/
def getTextList : NodeList → String
  | .nil => ""
  | .cons n rest => getTextNode n ++ getTextList rest
end

/-- BeautifulSoup `tag.get(name)`: the attribute value, or `None`. -/
def attrOf (n : Node) (name : String) : Option String :=
  match n with
  | .elem _ attrs _ => (attrs.find? (fun kv => kv.1 == name)).map (fun kv => kv.2)
  | .text _ => none

/-- BeautifulSoup `tag.name` for elements (text nodes give `""`). -/
def tagOf : Node → String
  | .elem t _ _ => t
  | .text _ => ""

/-- Attribute rendering used by `prettify`. -/
def attrsString (attrs : List (String × String)) : String :=
  attrs.foldl (fun acc kv => acc ++ " " ++ kv.1 ++ "=\"" ++ kv.2 ++ "\"") ""

/-- Indentation of `prettify`: one space per nesting level. -/
def indentStr (n : Nat) : String := String.mk (List.replicate n ' ')

mutual
/-- The lines produced by BeautifulSoup `prettify` for one node: each tag and
each non-blank string on its own indented line. -/
def prettyNode (indent : Nat) : Node → List String
  | .text s => if pyStrip s = "" then [] else [indentStr indent ++ pyStrip s]
  | .elem t a cs =>
      (indentStr indent ++ "<" ++ t ++ attrsString a ++ ">") ::
        (prettyList (indent + 1) cs ++ [indentStr indent ++ "</" ++ t ++ ">"])

/-- Lines of `prettify` for a forest. -/
def prettyList (indent : Nat) : NodeList → List String
  | .nil => []
  | .cons n rest => prettyNode indent n ++ prettyList indent rest
end

/-- BeautifulSoup `soup.prettify()`: the document node itself is not
rendered, its children are, joined by newlines.  This is what the crawl loop
stores as `raw_data` in raw mode (`result_data = soup.prettify()`). -/
def soupPrettify : Node → String
  | .elem "[document]" _ cs => String.intercalate "\n" (prettyList 0 cs)
  | n => String.intercalate "\n" (prettyNode 0 n)

/-! ## Section extraction (`beautify` mode) -/

/-- A section heading: `{"tag": heading.name, "text": heading.get_text(strip=True)}`. -/
structure Heading where
  tag : String
  text : String
deriving DecidableEq, Repr

/-- One extracted content section, as built by both `scrape_website` and
`crawl_website`: optional heading, paragraph/list/span texts, resolved image
URLs and resolved fragment-stripped link URLs. -/
structure Section where
  heading : Option Heading
  content : List String
  images : List String
  links : List String
deriving DecidableEq, Repr

/-- The heading tags searched with `sec.find(['h1', …, 'h6'])`. -/
def headingTags : List String := ["h1", "h2", "h3", "h4", "h5", "h6"]

/-- The container tags searched with `soup.find_all(['section', 'div',
'article', 'main'])`. -/
def containerTags : List String := ["section", "div", "article", "main"]

/-- The text-bearing tags searched with `sec.find_all(['p', 'li', 'span'])`. -/
def textTags : List String := ["p", "li", "span"]

/-- Build the section dictionary for one container, following the loop body
shared by `scrape_website` (lines 109–141) and `crawl_website` (lines
218–236): first heading descendant, trimmed non-empty texts of `p`/`li`/`span`
descendants, `img src` values resolved against the page URL, and `a href`
values stripped of fragments then resolved against the page URL.  Attributes
that are missing or empty strings are skipped (`if src:` / `if href:`). -/
def buildSection (baseUrl : String) (sec : Node) : Section :=
  let heading : Option Heading :=
    match findIn headingTags sec with
    | some h => some { tag := tagOf h, text := getTextNode h }
    | none => none
  let content := (findAllIn textTags sec).filterMap fun e =>
    let t := getTextNode e
    if t = "" then none else some t
  let images := (findAllIn ["img"] sec).filterMap fun e =>
    match attrOf e "src" with
    | some src => if src = "" then none else some (urljoin baseUrl src)
    | none => none
  let links := (findAllIn ["a"] sec).filterMap fun e =>
    match attrOf e "href" with
    | some href => if href = "" then none else some (urljoin baseUrl (splitHash href))
    | none => none
  { heading := heading, content := content, images := images, links := links }

/-- The Python truthiness test `section_data["heading"] or
section_data["content"] or section_data["images"] or section_data["links"]`
guarding the append of a section. -/
def sectionKeep (s : Section) : Bool :=
  s.heading.isSome || !s.content.isEmpty || !s.images.isEmpty || !s.links.isEmpty

/-- The full per-page extraction of beautify mode: candidate containers (with
the body/whole-document fallback when none exist), one section per container,
empty sections discarded. -/
def extractSections (baseUrl : String) (doc : Node) : List Section :=
  let containers :=
    match findTagsNode containerTags doc with
    | [] => match findIn ["body"] doc with
            | some b => [b]
            | none => [doc]
    | cs => cs
  (containers.map (buildSection baseUrl)).filter sectionKeep

/-! ## Rendered pages and the fetch environment -/

/-- A page as rendered by the driver: the raw markup `driver.page_source` and
the parsed soup `BeautifulSoup(driver.page_source, 'html.parser')`. -/
structure RenderedPage where
  source : String
  dom : Node

/-- The outcome of the body of the per-page `try:` block of the crawl loop
for one URL:
* `ok`: `driver.get`, parsing, record construction and link discovery all
  succeed;
* `failBefore`: an exception is raised before `all_data.append(page_data)`
  (navigation or parsing), so only an error record is appended;
* `failAfter`: navigation and parsing succeed and the page record is
  appended, but Selenium link discovery (`driver.find_elements`
  / `get_attribute`, executed only when `type == "beautify"`) raises, so the
  `except` handler appends a second, error record for the same URL.  No link
  is enqueued in this case, since the comprehension building `links_on_page`
  completes before any link is offered. -/
inductive FetchResult where
  | ok (page : RenderedPage)
  | failBefore
  | failAfter (page : RenderedPage)

/-- A fetch environment: what rendering each URL produces in this run. -/
abbrev Env := String → FetchResult

/-! ## Result records -/

/-- One entry of the crawl's `data` list: `{"url", "raw_data"}` in raw mode,
`{"url", "content"}` in beautify mode, `{"url", "error"}` when the per-page
handler caught an exception. -/
inductive PageRecord where
  | raw (url : String) (rawData : String)
  | content (url : String) (sections : List Section)
  | failed (url : String) (errorMsg : String)
deriving DecidableEq, Repr

/-- The `"url"` field, present on every record shape. -/
def PageRecord.url : PageRecord → String
  | .raw u _ => u
  | .content u _ => u
  | .failed u _ => u

/-- The sections of a record (`[]` for raw and error records). -/
def PageRecord.sectionList : PageRecord → List Section
  | .content _ s => s
  | _ => []

/-- The dictionary returned by `crawl_website`; optional fields model keys
absent from the error-shaped return value. -/
structure CrawlResult where
  status : String
  url : Option String
  type : Option String
  data : Option (List PageRecord)
  error : Option String
deriving DecidableEq, Repr

/-- The `data` payload of `scrape_website`: raw HTML, or the structured
`{"sections": …}` dictionary. -/
inductive ScrapeData where
  | rawHtml (html : String)
  | beautified (sections : List Section)
deriving DecidableEq, Repr

/-- The dictionary returned by `scrape_website`. -/
structure ScrapeResult where
  status : String
  url : Option String
  type : Option String
  data : Option ScrapeData
  error : Option String
deriving DecidableEq, Repr

/-- How many driver sessions an invocation opened and how many it closed
(`initialize_driver` success, and `driver.quit()` in the `finally:` block). -/
structure DriverTrace where
  opens : Nat
  closes : Nat
deriving DecidableEq, Repr

/-! ## The frontier and the crawl loop -/

/-- The anchor hrefs Selenium link discovery reads from the rendered page:
`[elem.get_attribute('href') for elem in driver.find_elements(By.TAG_NAME, 'a')]`. -/
def pageHrefs (page : RenderedPage) : List (Option String) :=
  (findAllIn ["a"] page.dom).map (fun n => attrOf n "href")

/-- The message of the record appended by the per-page `except` handler
(`f"Error processing {current_url} during crawl: …"`; the exception text and
traceback are environment noise and are not modelled). -/
def crawlPageError (current : String) : String :=
  "Error processing " ++ current ++ " during crawl"

/-- The link-ingestion loop of `crawl_website` (lines 256–268): for each
truthy href, resolve it against the current URL, and append its
fragment-stripped, slash-stripped normalization to the queue only when the
resolved link's scheme is http/https, its netloc equals the crawl domain, and
the normalized URL is in neither `visited` nor the live `to_visit` list. -/
def offerLinks (domain current : String) :
    List (Option String) → List String → List String → List String
  | [], _, queue => queue
  | none :: ls, visited, queue => offerLinks domain current ls visited queue
  | some link :: ls, visited, queue =>
      if link = "" then offerLinks domain current ls visited queue
      else if (schemeOf (urljoin current link) = "http" ∨
               schemeOf (urljoin current link) = "https") ∧
              netlocOf (urljoin current link) = domain then
        if normalizeLink (urljoin current link) ∉ visited ∧
           normalizeLink (urljoin current link) ∉ queue then
          offerLinks domain current ls visited (queue ++ [normalizeLink (urljoin current link)])
        else offerLinks domain current ls visited queue
      else offerLinks domain current ls visited queue

/-- The `page_data` dictionary built for a successfully parsed page:
prettified raw markup under `raw_data` in raw mode, extracted sections under
`content` otherwise. -/
def mainRecord (ty current : String) (page : RenderedPage) : PageRecord :=
  if ty = "raw" then PageRecord.raw current (soupPrettify page.dom)
  else PageRecord.content current (extractSections current page.dom)

/-- The records one processed URL contributes to `all_data`, by fetch
outcome: an error record when the `try:` body fails before the append; the
page record on success; and on a link-discovery failure the page record
followed by the error record the `except` handler appends — link discovery
runs only when `type == "beautify"`, so in other modes `failAfter` behaves
like success. -/
def pageRecords (ty current : String) (fr : FetchResult) : List PageRecord :=
  match fr with
  | .failBefore => [PageRecord.failed current (crawlPageError current)]
  | .ok page => [mainRecord ty current page]
  | .failAfter page =>
      mainRecord ty current page ::
        (if ty = "beautify" then [PageRecord.failed current (crawlPageError current)] else [])

/-- The queue after processing one URL: links are discovered and offered only
when the fetch succeeded fully and `type == "beautify"`. -/
def pageQueue (domain ty current : String) (fr : FetchResult)
    (visited queue : List String) : List String :=
  match fr with
  | .ok page => if ty = "beautify" then offerLinks domain current (pageHrefs page) visited queue else queue
  | _ => queue

/-- The parameters fixed for the lifetime of one crawl invocation. -/
structure CrawlParams where
  env : Env
  ty : String
  domain : String
  maxPages : Int

/-- The mutable state of the crawl loop: `visited`, `to_visit`, `all_data`
and `pages_processed`. -/
structure CrawlState where
  visited : List String
  toVisit : List String
  allData : List PageRecord
  pagesProcessed : Nat
deriving DecidableEq, Repr

/-- Processing of one popped, unvisited URL (lines 200–275): add it to
`visited`, increment `pages_processed`, append this page's records, and
extend the queue with any discovered links. -/
def processPage (p : CrawlParams) (current : String) (st : CrawlState) : CrawlState :=
  { visited := current :: st.visited,
    pagesProcessed := st.pagesProcessed + 1,
    allData := st.allData ++ pageRecords p.ty current (p.env current),
    toVisit := pageQueue p.domain p.ty current (p.env current) (current :: st.visited) st.toVisit }

/-- The crawl loop `while to_visit and pages_processed < max_pages` (lines
195–275): pop the head of the queue, skip it when already visited, process it
otherwise. -/
def crawlLoop (p : CrawlParams) (st : CrawlState) : CrawlState :=
  match h : st.toVisit with
  | [] => st
  | current :: rest =>
      if (st.pagesProcessed : Int) < p.maxPages then
        if current ∈ st.visited then
          crawlLoop p { st with toVisit := rest }
        else
          crawlLoop p (processPage p current { st with toVisit := rest })
      else st
termination_by (p.maxPages.toNat - st.pagesProcessed, st.toVisit.length)
decreasing_by
  all_goals simp [processPage, h]
  all_goals omega

/-- Fuel-indexed unfolding of `crawlLoop`, used to evaluate the loop on
concrete inputs by kernel reduction. -/
def crawlLoopFuel (p : CrawlParams) : Nat → CrawlState → CrawlState
  | 0, st => st
  | fuel + 1, st =>
      match st.toVisit with
      | [] => st
      | current :: rest =>
          if (st.pagesProcessed : Int) < p.maxPages then
            if current ∈ st.visited then
              crawlLoopFuel p fuel { st with toVisit := rest }
            else
              crawlLoopFuel p fuel (processPage p current { st with toVisit := rest })
          else st

/-- The initial frontier of a crawl: `visited = set()`,
`to_visit = [base_url.rstrip('/')]`, no data, zero pages processed. -/
def initState (base_url : String) : CrawlState :=
  { visited := [], toVisit := [rstripSlashes base_url], allData := [], pagesProcessed := 0 }

/-- The crawl parameters fixed by `crawl_website`:
`domain = urlparse(base_url).netloc`. -/
def mkParams (env : Env) (ty base_url : String) (maxPages : Int) : CrawlParams :=
  { env := env, ty := ty, domain := netlocOf base_url, maxPages := maxPages }

/-- The error message of the outer `except` handler of `crawl_website` when
driver provisioning raised (`f"Crawl failed for {base_url}: …"` wrapping the
`RuntimeError` from `initialize_driver`). -/
def crawlFatalError (base_url : String) : String :=
  "Crawl failed for " ++ base_url ++ ": Failed to initialize web driver"

/-- Model of `crawl_website(base_url, type, max_pages)` together with its driver
open/close trace.  `initOk` models whether `initialize_driver()` succeeds; on
failure the outer `except` returns the error dictionary (discarding any
collected data) and the `finally:` block has no driver to quit
(`initialize_driver` already cleaned up its partial state); on success the
loop runs to completion — per-page exceptions are consumed inside the loop —
and the `finally:` block quits the one driver exactly once. -/
def crawl_website_traced (env : Env) (initOk : Bool) (base_url ty : String)
    (maxPages : Int) : CrawlResult × DriverTrace :=
  if initOk then
    let fin := crawlLoop (mkParams env ty base_url maxPages) (initState base_url)
    ({ status := "success", url := some base_url, type := some ("crawl_" ++ ty),
       data := some fin.allData, error := none },
     { opens := 1, closes := 1 })
  else
    ({ status := "error", url := none, type := none, data := none,
       error := some (crawlFatalError base_url) },
     { opens := 0, closes := 0 })

/-- The dictionary `crawl_website` returns. -/
def crawl_website (env : Env) (initOk : Bool) (base_url ty : String)
    (maxPages : Int) : CrawlResult :=
  (crawl_website_traced env initOk base_url ty maxPages).1

/-! ## Single-page scrape -/

/-- The error message of the `except` handler of `scrape_website`
(`f"Error scraping {url}: …"`). -/
def scrapeError (url : String) : String :=
  "Error scraping " ++ url

/-- Model of `scrape_website(url, type)` together with its driver open/close trace.
The driver is acquired once; a navigation/parse failure (`failBefore`) is
caught and returned as the error dictionary, with the `finally:` block still
quitting the driver; raw mode returns `driver.page_source` verbatim; any
other mode extracts sections and reports `type = "beautify"`.  Link discovery
is never executed, so a `failAfter` environment behaves like success. -/
def scrape_website_traced (env : Env) (initOk : Bool) (url ty : String) :
    ScrapeResult × DriverTrace :=
  if initOk then
    match env url with
    | .failBefore =>
        ({ status := "error", url := none, type := none, data := none,
           error := some (scrapeError url) }, { opens := 1, closes := 1 })
    | .ok page =>
        (if ty = "raw" then
          { status := "success", url := some url, type := some "raw",
            data := some (ScrapeData.rawHtml page.source), error := none }
         else
          { status := "success", url := some url, type := some "beautify",
            data := some (ScrapeData.beautified (extractSections url page.dom)),
            error := none }, { opens := 1, closes := 1 })
    | .failAfter page =>
        (if ty = "raw" then
          { status := "success", url := some url, type := some "raw",
            data := some (ScrapeData.rawHtml page.source), error := none }
         else
          { status := "success", url := some url, type := some "beautify",
            data := some (ScrapeData.beautified (extractSections url page.dom)),
            error := none }, { opens := 1, closes := 1 })
  else
    ({ status := "error", url := none, type := none, data := none,
       error := some (scrapeError url) }, { opens := 0, closes := 0 })

/-- The dictionary `scrape_website` returns. -/
def scrape_website (env : Env) (initOk : Bool) (url ty : String) : ScrapeResult :=
  (scrape_website_traced env initOk url ty).1

/-! ## Invariant predicates and concrete test data -/

/-- Non-emptiness of a section, as the spec states it. -/
def SectionNonempty (s : Section) : Prop :=
  s.heading ≠ none ∨ s.content ≠ [] ∨ s.images ≠ [] ∨ s.links ≠ []

/-- A URL admissible for enqueueing in a crawl scoped to `domain`: the
normalization of some resolved raw href that passed the scheme and domain
guard. -/
def ScopedLink (domain u : String) : Prop :=
  ∃ src raw, raw ≠ "" ∧
    (schemeOf (urljoin src raw) = "http" ∨ schemeOf (urljoin src raw) = "https") ∧
    netlocOf (urljoin src raw) = domain ∧ u = normalizeLink (urljoin src raw)

/-- Invariants of the crawl state that hold in every run, with no assumption
on the environment: domain scoping of the queue, non-emptiness of every
stored section, and provenance of every stored raw markup. -/
structure StateOK (p : CrawlParams) (seed : String) (st : CrawlState) : Prop where
  queueScoped : ∀ u ∈ st.toVisit, u = seed ∨ ScopedLink p.domain u
  secOK : ∀ r ∈ st.allData, ∀ s ∈ PageRecord.sectionList r, SectionNonempty s
  rawOK : ∀ u d, PageRecord.raw u d ∈ st.allData →
    ∃ pg, (p.env u = FetchResult.ok pg ∨ p.env u = FetchResult.failAfter pg) ∧
      d = soupPrettify pg.dom

/-- Invariants of the crawl state under a well-behaved environment (no
link-discovery-phase exception, so one record per processed page) and a
normalized frontier: record urls are pairwise distinct normalized URLs, and
the record count equals `pages_processed`, which never exceeds the budget. -/
structure StateStrict (p : CrawlParams) (st : CrawlState) : Prop where
  urlsNodup : (st.allData.map PageRecord.url).Nodup
  urlsVisited : ∀ r ∈ st.allData, PageRecord.url r ∈ st.visited
  queueNorm : ∀ u ∈ st.toVisit, normalizeLink u = u
  dataNorm : ∀ r ∈ st.allData, normalizeLink (PageRecord.url r) = PageRecord.url r
  countEq : st.allData.length = st.pagesProcessed
  ppBound : st.pagesProcessed = 0 ∨ (st.pagesProcessed : Int) ≤ p.maxPages

/-- Record-count invariant of the crawl state under a well-behaved
environment: exactly one record per processed page, and `pages_processed`
never exceeds the budget once positive. -/
structure StateCount (p : CrawlParams) (st : CrawlState) : Prop where
  countEq : st.allData.length = st.pagesProcessed
  ppBound : st.pagesProcessed = 0 ∨ (st.pagesProcessed : Int) ≤ p.maxPages

/-- A parsed document with the given top-level nodes. -/
def docOf (children : List Node) : Node :=
  Node.elem "[document]" [] (nodes children)

/-- A page whose body is one paragraph. -/
def pagePlain : RenderedPage :=
  { source := "<p>x</p>", dom := docOf [Node.elem "p" [] (nodes [Node.text "x"])] }

/-- A page used to exhibit prettified raw crawl output. -/
def pageRawDemo : RenderedPage :=
  { source := "<p>hi</p>", dom := docOf [Node.elem "p" [] (nodes [Node.text "hi"])] }

/-- Environment rendering exactly one URL. -/
def envRawDemo : Env := fun u =>
  if u = "http://a.test" then FetchResult.ok pageRawDemo else FetchResult.failBefore

/-- Environment in which Selenium link discovery always raises after the page
record has been appended. -/
def envLateFail : Env := fun _ => FetchResult.failAfter pagePlain

/-- The page at the fragment-carrying seed, linking to its own
fragment-free URL. -/
def pageSeedFrag : RenderedPage :=
  { source := "<div><a href=\"http://a.test/page\">self</a></div>",
    dom := docOf [Node.elem "div" []
      (nodes [Node.elem "a" [("href", "http://a.test/page")] (nodes [Node.text "self"])])] }

/-- A link-free page. -/
def pageDone : RenderedPage :=
  { source := "<p>done</p>", dom := docOf [Node.elem "p" [] (nodes [Node.text "done"])] }

/-- Environment for the duplicate-URL run: the seed carries a fragment and
its page links back to the fragment-free form of the same URL. -/
def envFragDup : Env := fun u =>
  if u = "http://a.test/page#f" then FetchResult.ok pageSeedFrag
  else if u = "http://a.test/page" then FetchResult.ok pageDone
  else FetchResult.failBefore

/-- Environment in which every navigation fails. -/
def envAllFail : Env := fun _ => FetchResult.failBefore

/-- The single section extracted from a one-paragraph document. -/
def sectionW : Section :=
  { heading := none, content := ["hi"], images := [], links := [] }

/-! ## Basic facts -/

theorem processPage_pagesProcessed (p : CrawlParams) (current : String) (st : CrawlState) :
    (processPage p current st).pagesProcessed = st.pagesProcessed + 1 := rfl

/-! ## Basic facts about the normalization primitives -/

theorem toList_mk (l : List Char) : (String.mk l).toList = l := rfl

theorem mk_toList (s : String) : String.mk s.toList = s := rfl

theorem toList_append (s t : String) : (s ++ t).toList = s.toList ++ t.toList :=
  String.data_append s t

theorem dropWhile_self {α : Type} (p : α → Bool) (l : List α) :
    (l.dropWhile p).dropWhile p = l.dropWhile p := by
  induction l with
  | nil => rfl
  | cons c cs ih =>
      by_cases h : p c = true
      · rw [List.dropWhile_cons_of_pos h, ih]
      · rw [List.dropWhile_cons_of_neg (by simp [h]), List.dropWhile_cons_of_neg (by simp [h])]

theorem rstripSlashes_toList (s : String) :
    (rstripSlashes s).toList = (s.toList.reverse.dropWhile (fun c => c == '/')).reverse := rfl

/-- Python `rstrip('/')` is idempotent. -/
theorem rstripSlashes_idem (s : String) : rstripSlashes (rstripSlashes s) = rstripSlashes s := by
  show String.mk _ = String.mk _
  congr 1
  rw [rstripSlashes_toList s, List.reverse_reverse, dropWhile_self]

/-- Python `rstrip('/')` only removes characters. -/
theorem rstripSlashes_subset (s : String) :
    ∀ c ∈ (rstripSlashes s).toList, c ∈ s.toList := by
  intro c hc
  rw [rstripSlashes_toList, List.mem_reverse] at hc
  have h2 := List.dropWhile_subset (l := s.toList.reverse) (fun c => c == '/') hc
  rwa [List.mem_reverse] at h2

theorem splitHash_toList (s : String) :
    (splitHash s).toList = s.toList.takeWhile (fun c => c != '#') := rfl

/-- Python `split('#')[0]` does nothing to a fragment-free string. -/
theorem splitHash_no_hash {s : String} (h : '#' ∉ s.toList) : splitHash s = s := by
  have hall : ∀ x ∈ s.toList, (x != '#') = true := by
    intro x hx
    simp only [bne_iff_ne, ne_eq]
    intro hx2
    exact h (hx2 ▸ hx)
  show String.mk (s.toList.takeWhile (fun c => c != '#')) = s
  rw [List.takeWhile_eq_self_iff.mpr hall]
  rfl

/-- The output of `split('#')[0]` is fragment-free. -/
theorem no_hash_splitHash (s : String) : '#' ∉ (splitHash s).toList := by
  intro h
  rw [splitHash_toList] at h
  have h2 := List.mem_takeWhile_imp h
  simp at h2

theorem no_hash_normalizeLink (s : String) : '#' ∉ (normalizeLink s).toList := by
  intro h
  exact no_hash_splitHash s (rstripSlashes_subset _ _ h)

/-- Normalization of discovered links is idempotent. -/
theorem normalizeLink_idem (s : String) : normalizeLink (normalizeLink s) = normalizeLink s := by
  show rstripSlashes (splitHash (normalizeLink s)) = normalizeLink s
  rw [splitHash_no_hash (no_hash_normalizeLink s)]
  show rstripSlashes (rstripSlashes (splitHash s)) = rstripSlashes (splitHash s)
  rw [rstripSlashes_idem]

/-- On a fragment-free seed the `rstrip('/')` key of line 186 is already a
fixed point of the link normalization of line 265. -/
theorem seed_normalized {base : String} (h : '#' ∉ base.toList) :
    normalizeLink (rstripSlashes base) = rstripSlashes base := by
  show rstripSlashes (splitHash (rstripSlashes base)) = rstripSlashes base
  rw [splitHash_no_hash (fun hc => h (rstripSlashes_subset base _ hc)), rstripSlashes_idem]

theorem rstripSlashes_append_slash (u : String) :
    rstripSlashes (u ++ "/") = rstripSlashes u := by
  show String.mk _ = String.mk _
  congr 1
  rw [toList_append, List.reverse_append]
  simp [List.dropWhile_cons]

theorem splitHash_append_of_hash {u : String} (h : '#' ∈ u.toList) (v : String) :
    splitHash (u ++ v) = splitHash u := by
  show String.mk _ = String.mk _
  congr 1
  rw [toList_append, List.takeWhile_append, if_neg]
  intro hlen
  have heq := (List.takeWhile_sublist (l := u.toList) (fun c => c != '#')).eq_of_length hlen
  have hall := List.takeWhile_eq_self_iff.mp heq '#' h
  simp at hall

theorem splitHash_append_hash_of_no_hash {u : String} (h : '#' ∉ u.toList) :
    splitHash (u ++ "#") = u := by
  have hall : ∀ x ∈ u.toList, (x != '#') = true := by
    intro x hx
    simp only [bne_iff_ne, ne_eq]
    intro hx2
    exact h (hx2 ▸ hx)
  have h2 : (u ++ "#").toList.takeWhile (fun c => c != '#') = u.toList := by
    rw [toList_append, List.takeWhile_append_of_pos hall,
      show ("#" : String).toList = ['#'] from rfl,
      List.takeWhile_cons_of_neg (by decide), List.append_nil]
  show String.mk ((u ++ "#").toList.takeWhile (fun c => c != '#')) = u
  rw [h2]
  rfl

/-- Appending a trailing slash does not change the normalized frontier key. -/
theorem normalizeLink_append_slash (u : String) :
    normalizeLink (u ++ "/") = normalizeLink u := by
  by_cases h : '#' ∈ u.toList
  · show rstripSlashes (splitHash (u ++ "/")) = rstripSlashes (splitHash u)
    rw [splitHash_append_of_hash h]
  · have h1 : '#' ∉ (u ++ "/").toList := by
      rw [toList_append]
      intro hm
      rcases List.mem_append.mp hm with hm | hm
      · exact h hm
      · exact absurd hm (by decide)
    show rstripSlashes (splitHash (u ++ "/")) = rstripSlashes (splitHash u)
    rw [splitHash_no_hash h1, splitHash_no_hash h, rstripSlashes_append_slash]

/-- Appending a fragment suffix does not change the normalized frontier key. -/
theorem normalizeLink_append_frag (u f : String) :
    normalizeLink (u ++ "#" ++ f) = normalizeLink u := by
  have h1 : splitHash (u ++ "#" ++ f) = splitHash (u ++ "#") :=
    splitHash_append_of_hash
      (by rw [toList_append]; exact List.mem_append.mpr (Or.inr (by decide))) f
  show rstripSlashes (splitHash (u ++ "#" ++ f)) = rstripSlashes (splitHash u)
  rw [h1]
  by_cases h : '#' ∈ u.toList
  · rw [splitHash_append_of_hash h]
  · rw [splitHash_append_hash_of_no_hash h, splitHash_no_hash h]

/-! ## Unfolding and evaluation lemmas for the crawl loop -/

theorem crawlLoop_done (p : CrawlParams) (st : CrawlState)
    (h : st.toVisit = [] ∨ ¬ ((st.pagesProcessed : Int) < p.maxPages)) :
    crawlLoop p st = st := by
  rw [crawlLoop.eq_def]
  split
  · rfl
  next current rest heq =>
    rcases h with h | h
    · rw [h] at heq; cases heq
    · rw [if_neg h]

theorem crawlLoop_skip (p : CrawlParams) (c : String) (r : List String) (st : CrawlState)
    (hq : st.toVisit = c :: r) (hp : (st.pagesProcessed : Int) < p.maxPages)
    (hv : c ∈ st.visited) :
    crawlLoop p st = crawlLoop p { st with toVisit := r } := by
  conv_lhs => rw [crawlLoop.eq_def]
  split
  next heq => rw [hq] at heq; cases heq
  next current rest heq =>
    rw [hq] at heq
    injection heq with h1 h2
    subst h1
    subst h2
    rw [if_pos hp, if_pos hv]

theorem crawlLoop_process (p : CrawlParams) (c : String) (r : List String) (st : CrawlState)
    (hq : st.toVisit = c :: r) (hp : (st.pagesProcessed : Int) < p.maxPages)
    (hv : c ∉ st.visited) :
    crawlLoop p st = crawlLoop p (processPage p c { st with toVisit := r }) := by
  conv_lhs => rw [crawlLoop.eq_def]
  split
  next heq => rw [hq] at heq; cases heq
  next current rest heq =>
    rw [hq] at heq
    injection heq with h1 h2
    subst h1
    subst h2
    rw [if_pos hp, if_neg hv]

theorem crawlLoop_eq_fuel (p : CrawlParams) (n : Nat) (st : CrawlState) :
    crawlLoop p st = crawlLoop p (crawlLoopFuel p n st) := by
  induction n generalizing st with
  | zero => rfl
  | succ m ih =>
      rw [crawlLoopFuel]
      cases hq : st.toVisit with
      | nil => rfl
      | cons c r =>
          show crawlLoop p st = crawlLoop p
            (if (st.pagesProcessed : Int) < p.maxPages then
              (if c ∈ st.visited then crawlLoopFuel p m { st with toVisit := r }
               else crawlLoopFuel p m (processPage p c { st with toVisit := r }))
             else st)
          by_cases hp : (st.pagesProcessed : Int) < p.maxPages
          · rw [if_pos hp]
            by_cases hv : c ∈ st.visited
            · rw [if_pos hv, ← ih, crawlLoop_skip p c r st hq hp hv]
            · rw [if_neg hv, ← ih, crawlLoop_process p c r st hq hp hv]
          · rw [if_neg hp]

/-- Evaluation principle: a fuelled run that ends with the loop condition
false computes the loop's value. -/
theorem crawlLoop_run (p : CrawlParams) (n : Nat) (st st' : CrawlState)
    (h1 : crawlLoopFuel p n st = st')
    (h2 : st'.toVisit = [] ∨ ¬ ((st'.pagesProcessed : Int) < p.maxPages)) :
    crawlLoop p st = st' := by
  rw [crawlLoop_eq_fuel p n st, h1, crawlLoop_done p st' h2]

theorem crawl_website_ok (env : Env) (base ty : String) (maxP : Int) :
    crawl_website env true base ty maxP =
      { status := "success", url := some base, type := some ("crawl_" ++ ty),
        data := some (crawlLoop (mkParams env ty base maxP) (initState base)).allData,
        error := none } := rfl

theorem crawl_website_fail (env : Env) (base ty : String) (maxP : Int) :
    crawl_website env false base ty maxP =
      { status := "error", url := none, type := none, data := none,
        error := some (crawlFatalError base) } := rfl

/-! ## Facts about extracted sections and page records -/

theorem sectionKeep_iff (s : Section) : sectionKeep s = true ↔ SectionNonempty s := by
  simp [sectionKeep, SectionNonempty, Option.isSome_iff_ne_none, List.isEmpty_iff,
    or_assoc]

theorem extractSections_keep (base : String) (doc : Node) :
    ∀ s ∈ extractSections base doc, sectionKeep s = true := by
  intro s hs
  exact (List.mem_filter.mp hs).2

theorem mainRecord_url (ty cur : String) (page : RenderedPage) :
    PageRecord.url (mainRecord ty cur page) = cur := by
  unfold mainRecord
  split <;> rfl

theorem mainRecord_sections (ty cur : String) (page : RenderedPage) :
    ∀ s ∈ PageRecord.sectionList (mainRecord ty cur page), sectionKeep s = true := by
  unfold mainRecord
  split
  · intro s hs
    simp [PageRecord.sectionList] at hs
  · intro s hs
    exact extractSections_keep _ _ s hs

theorem mainRecord_raw_eq {ty cur u d : String} {page : RenderedPage}
    (h : mainRecord ty cur page = PageRecord.raw u d) :
    u = cur ∧ d = soupPrettify page.dom := by
  unfold mainRecord at h
  split at h
  · injection h with h1 h2
    exact ⟨h1.symm, h2.symm⟩
  · cases h

theorem pageRecords_urls (ty cur : String) (fr : FetchResult) :
    ∀ r ∈ pageRecords ty cur fr, PageRecord.url r = cur := by
  intro r hr
  cases fr with
  | failBefore =>
      simp [pageRecords] at hr
      subst hr
      rfl
  | ok page =>
      simp [pageRecords] at hr
      subst hr
      exact mainRecord_url ty cur page
  | failAfter page =>
      simp [pageRecords] at hr
      rcases hr with hr | hr
      · subst hr
        exact mainRecord_url ty cur page
      · obtain ⟨hb, hr⟩ := hr
        subst hr
        rfl

theorem pageRecords_ne_nil (ty cur : String) (fr : FetchResult) :
    pageRecords ty cur fr ≠ [] := by
  cases fr <;> simp [pageRecords]

theorem pageRecords_length_le (ty cur : String) (fr : FetchResult) :
    (pageRecords ty cur fr).length ≤ 2 := by
  cases fr with
  | failBefore => simp [pageRecords]
  | ok page => simp [pageRecords]
  | failAfter page =>
      simp only [pageRecords, List.length_cons]
      split <;> simp

theorem pageRecords_length_one (ty cur : String) (fr : FetchResult)
    (h : ∀ pg, fr ≠ FetchResult.failAfter pg) :
    (pageRecords ty cur fr).length = 1 := by
  cases fr with
  | failBefore => rfl
  | ok page => rfl
  | failAfter page => exact absurd rfl (h page)

theorem pageRecords_sections (ty cur : String) (fr : FetchResult) :
    ∀ r ∈ pageRecords ty cur fr, ∀ s ∈ PageRecord.sectionList r, sectionKeep s = true := by
  intro r hr
  cases fr with
  | failBefore =>
      simp [pageRecords] at hr
      subst hr
      intro s hs
      simp [PageRecord.sectionList] at hs
  | ok page =>
      simp [pageRecords] at hr
      subst hr
      exact mainRecord_sections ty cur page
  | failAfter page =>
      simp [pageRecords] at hr
      rcases hr with hr | hr
      · subst hr
        exact mainRecord_sections ty cur page
      · obtain ⟨hb, hr⟩ := hr
        subst hr
        intro s hs
        simp [PageRecord.sectionList] at hs

theorem pageRecords_raw {ty cur u d : String} {fr : FetchResult}
    (h : PageRecord.raw u d ∈ pageRecords ty cur fr) :
    u = cur ∧ ∃ pg, (fr = FetchResult.ok pg ∨ fr = FetchResult.failAfter pg) ∧
      d = soupPrettify pg.dom := by
  cases fr with
  | failBefore => simp [pageRecords] at h
  | ok page =>
      have h2 : PageRecord.raw u d = mainRecord ty cur page := List.mem_singleton.mp h
      obtain ⟨h1, h3⟩ := mainRecord_raw_eq h2.symm
      exact ⟨h1, page, Or.inl rfl, h3⟩
  | failAfter page =>
      rcases List.mem_cons.mp h with h2 | h2
      · obtain ⟨h1, h3⟩ := mainRecord_raw_eq h2.symm
        exact ⟨h1, page, Or.inr rfl, h3⟩
      · by_cases hb : ty = "beautify"
        · rw [if_pos hb] at h2
          simp at h2
        · rw [if_neg hb] at h2
          simp at h2

/-! ## Facts about link ingestion -/

/-- Characterization of the queue produced by the link-ingestion loop: every
member was already queued, or is the fragment-stripped slash-stripped
normalization of a resolved page href with http/https scheme and exactly the
crawl's domain as netloc, absent from `visited` and from the queue when
offered. -/
theorem offerLinks_mem (domain current : String) (hs : List (Option String)) :
    ∀ (visited queue : List String) (l : String),
      l ∈ offerLinks domain current hs visited queue →
      l ∈ queue ∨ (l ∉ visited ∧ l ∉ queue ∧ ∃ raw, some raw ∈ hs ∧ raw ≠ "" ∧
        (schemeOf (urljoin current raw) = "http" ∨ schemeOf (urljoin current raw) = "https") ∧
        netlocOf (urljoin current raw) = domain ∧ l = normalizeLink (urljoin current raw)) := by
  induction hs with
  | nil =>
      intro visited queue l hl
      rw [offerLinks] at hl
      exact Or.inl hl
  | cons hd tl ih =>
      intro visited queue l hl
      cases hd with
      | none =>
          rw [offerLinks] at hl
          rcases ih visited queue l hl with h | ⟨h1, h2, raw, hmem, hrest⟩
          · exact Or.inl h
          · exact Or.inr ⟨h1, h2, raw, List.mem_cons_of_mem _ hmem, hrest⟩
      | some link =>
          rw [offerLinks] at hl
          by_cases he : link = ""
          · rw [if_pos he] at hl
            rcases ih visited queue l hl with h | ⟨h1, h2, raw, hmem, hrest⟩
            · exact Or.inl h
            · exact Or.inr ⟨h1, h2, raw, List.mem_cons_of_mem _ hmem, hrest⟩
          · rw [if_neg he] at hl
            by_cases hg : (schemeOf (urljoin current link) = "http" ∨
                schemeOf (urljoin current link) = "https") ∧
                netlocOf (urljoin current link) = domain
            · rw [if_pos hg] at hl
              by_cases hf : normalizeLink (urljoin current link) ∉ visited ∧
                  normalizeLink (urljoin current link) ∉ queue
              · rw [if_pos hf] at hl
                rcases ih visited _ l hl with h | ⟨h1, h2, raw, hmem, hrest⟩
                · rcases List.mem_append.mp h with h | h
                  · exact Or.inl h
                  · have hle : l = normalizeLink (urljoin current link) := by
                      simpa using h
                    subst hle
                    exact Or.inr ⟨hf.1, hf.2, link, List.mem_cons_self _ _, he, hg.1, hg.2, rfl⟩
                · refine Or.inr ⟨h1, fun hq => h2 (List.mem_append.mpr (Or.inl hq)),
                    raw, List.mem_cons_of_mem _ hmem, hrest⟩
              · rw [if_neg hf] at hl
                rcases ih visited queue l hl with h | ⟨h1, h2, raw, hmem, hrest⟩
                · exact Or.inl h
                · exact Or.inr ⟨h1, h2, raw, List.mem_cons_of_mem _ hmem, hrest⟩
            · rw [if_neg hg] at hl
              rcases ih visited queue l hl with h | ⟨h1, h2, raw, hmem, hrest⟩
              · exact Or.inl h
              · exact Or.inr ⟨h1, h2, raw, List.mem_cons_of_mem _ hmem, hrest⟩

/-- Lifting of `offerLinks_mem` to the per-page queue update. -/
theorem pageQueue_mem (domain ty current : String) (fr : FetchResult)
    (visited queue : List String) (l : String)
    (hl : l ∈ pageQueue domain ty current fr visited queue) :
    l ∈ queue ∨ (l ∉ visited ∧ l ∉ queue ∧ ScopedLink domain l ∧ normalizeLink l = l) := by
  cases fr with
  | failBefore => exact Or.inl hl
  | failAfter page => exact Or.inl hl
  | ok page =>
      rw [pageQueue] at hl
      by_cases hb : ty = "beautify"
      · rw [if_pos hb] at hl
        rcases offerLinks_mem domain current (pageHrefs page) visited queue l hl with
          h | ⟨h1, h2, raw, hmem, hne, hsch, hnl, heq⟩
        · exact Or.inl h
        · refine Or.inr ⟨h1, h2, ⟨current, raw, hne, hsch, hnl, heq⟩, ?_⟩
          rw [heq, normalizeLink_idem]
      · rw [if_neg hb] at hl
        exact Or.inl hl

/-! ## Crawl-state invariants -/

theorem stateOK_processPage (p : CrawlParams) (seed cur : String) (st : CrawlState)
    (h : StateOK p seed st) : StateOK p seed (processPage p cur st) := by
  constructor
  · intro u hu
    rcases pageQueue_mem p.domain p.ty cur (p.env cur) (cur :: st.visited) st.toVisit u hu with
      hq | ⟨h1, h2, hsc, h3⟩
    · exact h.queueScoped u hq
    · exact Or.inr hsc
  · intro r hr s hs
    rcases List.mem_append.mp hr with hr | hr
    · exact h.secOK r hr s hs
    · exact (sectionKeep_iff s).mp (pageRecords_sections p.ty cur (p.env cur) r hr s hs)
  · intro u d hmem
    rcases List.mem_append.mp hmem with hm | hm
    · exact h.rawOK u d hm
    · obtain ⟨hu, pg, hfr, hd⟩ := pageRecords_raw hm
      subst hu
      rcases hfr with hfr | hfr
      · exact ⟨pg, Or.inl hfr, hd⟩
      · exact ⟨pg, Or.inr hfr, hd⟩

theorem stateOK_crawlLoop (p : CrawlParams) (seed : String) (st : CrawlState)
    (h : StateOK p seed st) : StateOK p seed (crawlLoop p st) := by
  induction st using crawlLoop.induct p with
  | case1 st hq => rwa [crawlLoop_done p st (Or.inl hq)]
  | case2 st current rest hq hp hv ih =>
      rw [crawlLoop_skip p current rest st hq hp hv]
      apply ih
      exact { queueScoped := fun u hu => h.queueScoped u (by rw [hq]; exact List.mem_cons_of_mem _ hu),
              secOK := h.secOK, rawOK := h.rawOK }
  | case3 st current rest hq hp hv ih =>
      rw [crawlLoop_process p current rest st hq hp hv]
      apply ih
      apply stateOK_processPage
      exact { queueScoped := fun u hu => h.queueScoped u (by rw [hq]; exact List.mem_cons_of_mem _ hu),
              secOK := h.secOK, rawOK := h.rawOK }
  | case4 st current rest hq hp => rwa [crawlLoop_done p st (Or.inr hp)]

theorem stateOK_init (p : CrawlParams) (base : String) :
    StateOK p (rstripSlashes base) (initState base) := by
  constructor
  · intro u hu
    rcases List.mem_singleton.mp hu with h
    exact Or.inl h
  · intro r hr
    simp [initState] at hr
  · intro u d hm
    simp [initState] at hm

theorem stateStrict_processPage (p : CrawlParams) (cur : String) (st : CrawlState)
    (NoFA : ∀ u pg, p.env u ≠ FetchResult.failAfter pg)
    (hv : cur ∉ st.visited) (hcn : normalizeLink cur = cur)
    (hp : (st.pagesProcessed : Int) < p.maxPages)
    (h : StateStrict p st) : StateStrict p (processPage p cur st) := by
  have hlen : (pageRecords p.ty cur (p.env cur)).length = 1 :=
    pageRecords_length_one p.ty cur (p.env cur) (NoFA cur)
  obtain ⟨r0, hr0⟩ := List.length_eq_one.mp hlen
  have hurl : PageRecord.url r0 = cur :=
    pageRecords_urls p.ty cur (p.env cur) r0 (by rw [hr0]; exact List.mem_singleton.mpr rfl)
  have hdata : (processPage p cur st).allData = st.allData ++ [r0] := by
    show st.allData ++ pageRecords p.ty cur (p.env cur) = _
    rw [hr0]
  constructor
  · rw [hdata, List.map_append, List.map_singleton, hurl]
    refine List.nodup_append.mpr ⟨h.urlsNodup, List.nodup_singleton _, ?_⟩
    intro a ha hb
    obtain ⟨r, hr, hra⟩ := List.mem_map.mp ha
    rw [List.mem_singleton.mp hb] at hra
    exact hv (hra ▸ h.urlsVisited r hr)
  · intro r hr
    rw [hdata] at hr
    rcases List.mem_append.mp hr with hr | hr
    · exact List.mem_cons_of_mem _ (h.urlsVisited r hr)
    · rw [List.mem_singleton.mp hr, hurl]
      exact List.mem_cons_self _ _
  · intro u hu
    rcases pageQueue_mem p.domain p.ty cur (p.env cur) (cur :: st.visited) st.toVisit u hu with
      hq | ⟨h1, h2, hsc, h3⟩
    · exact h.queueNorm u hq
    · exact h3
  · intro r hr
    rw [hdata] at hr
    rcases List.mem_append.mp hr with hr | hr
    · exact h.dataNorm r hr
    · rw [List.mem_singleton.mp hr, hurl]
      exact hcn
  · rw [hdata, List.length_append, List.length_singleton, h.countEq]
    rfl
  · right
    have := processPage_pagesProcessed p cur st
    rw [this]
    push_cast
    omega

theorem stateStrict_crawlLoop (p : CrawlParams)
    (NoFA : ∀ u pg, p.env u ≠ FetchResult.failAfter pg) (st : CrawlState)
    (h : StateStrict p st) : StateStrict p (crawlLoop p st) := by
  induction st using crawlLoop.induct p with
  | case1 st hq => rwa [crawlLoop_done p st (Or.inl hq)]
  | case2 st current rest hq hp hv ih =>
      rw [crawlLoop_skip p current rest st hq hp hv]
      apply ih
      exact { urlsNodup := h.urlsNodup, urlsVisited := h.urlsVisited,
              queueNorm := fun u hu =>
                h.queueNorm u (by rw [hq]; exact List.mem_cons_of_mem _ hu),
              dataNorm := h.dataNorm, countEq := h.countEq, ppBound := h.ppBound }
  | case3 st current rest hq hp hv ih =>
      rw [crawlLoop_process p current rest st hq hp hv]
      apply ih
      refine stateStrict_processPage p current _ NoFA hv
        (h.queueNorm current (by rw [hq]; exact List.mem_cons_self _ _)) hp ?_
      exact { urlsNodup := h.urlsNodup, urlsVisited := h.urlsVisited,
              queueNorm := fun u hu =>
                h.queueNorm u (by rw [hq]; exact List.mem_cons_of_mem _ hu),
              dataNorm := h.dataNorm, countEq := h.countEq, ppBound := h.ppBound }
  | case4 st current rest hq hp => rwa [crawlLoop_done p st (Or.inr hp)]

theorem stateStrict_init (p : CrawlParams) (base : String) (h : '#' ∉ base.toList) :
    StateStrict p (initState base) := by
  constructor
  · exact List.nodup_nil
  · intro r hr
    simp [initState] at hr
  · intro u hu
    rw [List.mem_singleton.mp hu]
    exact seed_normalized h
  · intro r hr
    simp [initState] at hr
  · rfl
  · exact Or.inl rfl

theorem stateCount_processPage (p : CrawlParams) (cur : String) (st : CrawlState)
    (NoFA : ∀ u pg, p.env u ≠ FetchResult.failAfter pg)
    (hp : (st.pagesProcessed : Int) < p.maxPages)
    (h : StateCount p st) : StateCount p (processPage p cur st) := by
  constructor
  · show (st.allData ++ pageRecords p.ty cur (p.env cur)).length = st.pagesProcessed + 1
    rw [List.length_append, pageRecords_length_one p.ty cur (p.env cur) (NoFA cur), h.countEq]
  · right
    rw [processPage_pagesProcessed]
    push_cast
    omega

theorem stateCount_crawlLoop (p : CrawlParams)
    (NoFA : ∀ u pg, p.env u ≠ FetchResult.failAfter pg) (st : CrawlState)
    (h : StateCount p st) : StateCount p (crawlLoop p st) := by
  induction st using crawlLoop.induct p with
  | case1 st hq => rwa [crawlLoop_done p st (Or.inl hq)]
  | case2 st current rest hq hp hv ih =>
      rw [crawlLoop_skip p current rest st hq hp hv]
      exact ih { countEq := h.countEq, ppBound := h.ppBound }
  | case3 st current rest hq hp hv ih =>
      rw [crawlLoop_process p current rest st hq hp hv]
      exact ih (stateCount_processPage p current _ NoFA hp
        { countEq := h.countEq, ppBound := h.ppBound })
  | case4 st current rest hq hp => rwa [crawlLoop_done p st (Or.inr hp)]

theorem stateCount_init (p : CrawlParams) (base : String) :
    StateCount p (initState base) := by
  constructor
  · rfl
  · exact Or.inl rfl

/-- The crawl returns `status = "success"` whenever the driver was
provisioned: nothing inside the loop escapes the per-page handler. -/
theorem crawl_status_success (env : Env) (base ty : String) (maxP : Int) :
    (crawl_website env true base ty maxP).status = "success" := rfl

/-! ## Claim theorems -/

/-- C3, counterexample: the code does not use a single normalization
function for frontier keys.  The seed is enqueued under
`base_url.rstrip('/')` (line 186), which keeps the fragment, while the
link-discovery path produces `split('#')[0].rstrip('/')` (line 265); on the
URL `http://a.test/page#f` the two keys differ, so the key under which the
seed is enqueued is not the key the link-discovery path would produce. -/
theorem url_normalization_counterexample :
    (initState "http://a.test/page#f").toVisit = ["http://a.test/page#f"] ∧
    normalizeLink "http://a.test/page#f" = "http://a.test/page" ∧
    ("http://a.test/page#f" : String) ≠ "http://a.test/page" :=
  ⟨by decide, by decide, by decide⟩

/-- C3, amended: the link-discovery normalization `normalizeLink` (strip the
fragment, then strip trailing slashes) is one fixed function and is invariant
under appending a trailing slash or any fragment suffix; the seed key
`rstrip('/')` of line 186 agrees with it only for seed URLs that contain no
`'#'`. -/
theorem url_normalization_idempotent : ∀ u f : String,
    normalizeLink (u ++ "/") = normalizeLink u ∧
    normalizeLink (u ++ "#" ++ f) = normalizeLink u ∧
    ('#' ∉ u.toList → rstripSlashes u = normalizeLink u) := by
  intro u f
  refine ⟨normalizeLink_append_slash u, normalizeLink_append_frag u f, fun h => ?_⟩
  show rstripSlashes u = rstripSlashes (splitHash u)
  rw [splitHash_no_hash h]

theorem url_normalization_idempotent_witness :
    rstripSlashes "http://w.test/" = normalizeLink "http://w.test/" :=
  (url_normalization_idempotent "http://w.test/" "x").2.2 (by decide)

/-- C7: when the renderer session cannot be provisioned, `crawl_website`
returns `status = "error"` with a non-empty error message and no `data`
field; records collected before the failure are discarded (the error
dictionary carries no `data` at all). -/
theorem fatal_error_result : ∀ (env : Env) (base ty : String) (maxP : Int),
    (crawl_website env false base ty maxP).status = "error" ∧
    (crawl_website env false base ty maxP).data = none ∧
    ∃ e, (crawl_website env false base ty maxP).error = some e ∧ e ≠ "" := by
  intro env base ty maxP
  refine ⟨rfl, rfl, crawlFatalError base, rfl, fun h => ?_⟩
  have h2 := congrArg String.length h
  rw [show crawlFatalError base =
      "Crawl failed for " ++ base ++ ": Failed to initialize web driver" from rfl,
    String.length_append, String.length_append] at h2
  rw [show ("Crawl failed for " : String).length = 17 from rfl,
    show (": Failed to initialize web driver" : String).length = 33 from rfl,
    show ("" : String).length = 0 from rfl] at h2
  omega

/-- C9: for every scrape and every crawl invocation the number of driver
sessions closed equals the number opened — the `finally: driver.quit()`
blocks run on every exit path — and an invocation whose provisioning
succeeded closes its one session exactly once, while a failed provisioning
leaves no session open. -/
theorem driver_always_released :
    ∀ (env : Env) (initOk : Bool) (url base ty : String) (maxP : Int),
    (scrape_website_traced env initOk url ty).2.closes =
      (scrape_website_traced env initOk url ty).2.opens ∧
    (crawl_website_traced env initOk base ty maxP).2.closes =
      (crawl_website_traced env initOk base ty maxP).2.opens ∧
    (initOk = true → (scrape_website_traced env initOk url ty).2.opens = 1 ∧
      (crawl_website_traced env initOk base ty maxP).2.opens = 1) ∧
    (initOk = false → (scrape_website_traced env initOk url ty).2.opens = 0 ∧
      (crawl_website_traced env initOk base ty maxP).2.opens = 0) := by
  intro env initOk url base ty maxP
  cases initOk with
  | true =>
      have hs : (scrape_website_traced env true url ty).2 = { opens := 1, closes := 1 } := by
        cases henv : env url <;> simp [scrape_website_traced, henv]
      refine ⟨by rw [hs], rfl, fun _ => ⟨by rw [hs], rfl⟩, fun h => by cases h⟩
  | false =>
      refine ⟨rfl, rfl, fun h => ?_, fun _ => ⟨rfl, rfl⟩⟩
      cases h

theorem driver_always_released_witness :
    (scrape_website_traced envAllFail true "http://w.test" "beautify").2.opens = 1 ∧
    (crawl_website_traced envAllFail true "http://w.test" "beautify" 1).2.opens = 1 :=
  (driver_always_released envAllFail true "http://w.test" "http://w.test" "beautify" 1).2.2.1 rfl

/-- C10: calling the crawl with `max_pages < 1` and a working driver is not
reported as an error: the loop body never runs (the seed URL is never
rendered, the state is returned unchanged), and the result is
`status = "success"` with an empty `data` list. -/
theorem nonpositive_budget_short_circuit : ∀ (env : Env) (base ty : String) (maxP : Int),
    maxP < 1 →
    crawlLoop (mkParams env ty base maxP) (initState base) = initState base ∧
    (crawl_website env true base ty maxP).status = "success" ∧
    (crawl_website env true base ty maxP).data = some [] := by
  intro env base ty maxP h
  have hdone : crawlLoop (mkParams env ty base maxP) (initState base) = initState base := by
    refine crawlLoop_done _ _ (Or.inr ?_)
    show ¬ (((initState base).pagesProcessed : Int) < maxP)
    show ¬ (((0 : Nat) : Int) < maxP)
    omega
  refine ⟨hdone, rfl, ?_⟩
  show some (crawlLoop (mkParams env ty base maxP) (initState base)).allData = some []
  rw [hdone]
  rfl

theorem nonpositive_budget_short_circuit_witness :
    (crawl_website envAllFail true "http://w.test" "beautify" 0).data = some [] :=
  (nonpositive_budget_short_circuit envAllFail "http://w.test" "beautify" 0 (by decide)).2.2

/-- C4: a candidate link is enqueued only if the resolved link's scheme is
http or https, its netloc equals the crawl domain taken from `base_url`
exactly, and its normalized form is in neither `visited` nor the live queue
(first conjunct, about the enqueue site); consequently every URL the crawl
loop ever holds in its queue is the seed key or such a guarded link (second
and third conjuncts: the scoping invariant is preserved by the loop and holds
initially), so a link whose host differs from the seed's host is never
enqueued. -/
theorem crawl_domain_scoping :
    (∀ (domain current : String) (hs : List (Option String)) (visited queue : List String)
        (l : String), l ∈ offerLinks domain current hs visited queue →
        l ∈ queue ∨ (l ∉ visited ∧ l ∉ queue ∧ ∃ raw, some raw ∈ hs ∧ raw ≠ "" ∧
          (schemeOf (urljoin current raw) = "http" ∨ schemeOf (urljoin current raw) = "https") ∧
          netlocOf (urljoin current raw) = domain ∧ l = normalizeLink (urljoin current raw))) ∧
    (∀ (p : CrawlParams) (seed : String) (st : CrawlState),
        StateOK p seed st → StateOK p seed (crawlLoop p st)) ∧
    (∀ (env : Env) (ty base : String) (maxP : Int),
        ∀ u ∈ (crawlLoop (mkParams env ty base maxP) (initState base)).toVisit,
          u = rstripSlashes base ∨ ScopedLink (netlocOf base) u) := by
  refine ⟨fun d c hs v q l => offerLinks_mem d c hs v q l, stateOK_crawlLoop, ?_⟩
  intro env ty base maxP
  exact (stateOK_crawlLoop (mkParams env ty base maxP) (rstripSlashes base)
    (initState base) (stateOK_init _ base)).queueScoped

theorem crawl_domain_scoping_witness :
    ("http://a.test/b" : String) ∈ ([] : List String) ∨
    ("http://a.test/b" : String) ∉ ([] : List String) ∧
    ("http://a.test/b" : String) ∉ ([] : List String) ∧
    (∃ raw, some raw ∈ [some "http://a.test/b"] ∧ raw ≠ "" ∧
      (schemeOf (urljoin "http://a.test" raw) = "http" ∨
        schemeOf (urljoin "http://a.test" raw) = "https") ∧
      netlocOf (urljoin "http://a.test" raw) = "a.test" ∧
      "http://a.test/b" = normalizeLink (urljoin "http://a.test" raw)) :=
  crawl_domain_scoping.1 "a.test" "http://a.test" [some "http://a.test/b"] [] []
    "http://a.test/b" (by decide)

/-- C5: every section produced by the extractor has a non-null heading or a
non-empty content, images or links sequence — the emptiness filter of lines
144 and 238 discards the rest — and this holds of every section in every
record of every beautify scrape and of every crawl. -/
theorem sections_nonempty :
    (∀ (base : String) (doc : Node) (s : Section), s ∈ extractSections base doc →
        SectionNonempty s) ∧
    (∀ (env : Env) (initOk : Bool) (url ty : String) (secs : List Section),
        (scrape_website env initOk url ty).data = some (ScrapeData.beautified secs) →
        ∀ s ∈ secs, SectionNonempty s) ∧
    (∀ (env : Env) (initOk : Bool) (base ty : String) (maxP : Int),
        ∀ r ∈ (crawl_website env initOk base ty maxP).data.getD [],
          ∀ s ∈ PageRecord.sectionList r, SectionNonempty s) := by
  have hext : ∀ (base : String) (doc : Node) (s : Section), s ∈ extractSections base doc →
      SectionNonempty s := by
    intro base doc s hs
    exact (sectionKeep_iff s).mp (extractSections_keep base doc s hs)
  refine ⟨hext, ?_, ?_⟩
  · intro env initOk url ty secs hdata
    cases initOk with
    | false => simp [scrape_website, scrape_website_traced] at hdata
    | true =>
        cases henv : env url with
        | failBefore => simp [scrape_website, scrape_website_traced, henv] at hdata
        | ok page =>
            by_cases hty : ty = "raw"
            · simp [scrape_website, scrape_website_traced, henv, hty] at hdata
            · simp [scrape_website, scrape_website_traced, henv, hty] at hdata
              subst hdata
              exact hext url page.dom
        | failAfter page =>
            by_cases hty : ty = "raw"
            · simp [scrape_website, scrape_website_traced, henv, hty] at hdata
            · simp [scrape_website, scrape_website_traced, henv, hty] at hdata
              subst hdata
              exact hext url page.dom
  · intro env initOk base ty maxP r hr
    cases initOk with
    | false => simp [crawl_website, crawl_website_traced] at hr
    | true =>
        exact (stateOK_crawlLoop (mkParams env ty base maxP) (rstripSlashes base)
          (initState base) (stateOK_init _ base)).secOK r hr

theorem sections_nonempty_witness : SectionNonempty sectionW :=
  sections_nonempty.1 "http://a.test" (docOf [Node.elem "p" [] (nodes [Node.text "hi"])])
    sectionW (by decide)

/-- C8: a per-page failure is not fatal.  When the `try:` body for a popped
URL raises before the record append, exactly one record carrying that URL and
the error message is appended and the queue is untouched; when it raises
during link discovery instead, the error record carrying that URL follows the
page record, again without touching the queue; every processed page — failed
or successful — increments `pages_processed` by exactly one; the loop then
proceeds with the next queued URL; and the crawl still returns
`status = "success"`. -/
theorem per_page_failure_recovery : ∀ (p : CrawlParams) (cur : String) (st : CrawlState),
    p.env cur = FetchResult.failBefore →
    ((processPage p cur st).allData =
        st.allData ++ [PageRecord.failed cur (crawlPageError cur)] ∧
      (processPage p cur st).toVisit = st.toVisit) ∧
    (∀ (q : CrawlParams) (c : String) (s : CrawlState) (pg : RenderedPage),
        q.env c = FetchResult.failAfter pg → q.ty = "beautify" →
        (processPage q c s).allData =
          s.allData ++ [mainRecord q.ty c pg, PageRecord.failed c (crawlPageError c)] ∧
        (processPage q c s).toVisit = s.toVisit) ∧
    (∀ (q : CrawlParams) (c : String) (s : CrawlState),
        (processPage q c s).pagesProcessed = s.pagesProcessed + 1) ∧
    (∀ (c : String) (r : List String) (s : CrawlState), s.toVisit = c :: r →
        (s.pagesProcessed : Int) < p.maxPages → c ∉ s.visited →
        crawlLoop p s = crawlLoop p (processPage p c { s with toVisit := r })) ∧
    (∀ (env : Env) (base ty : String) (maxP : Int),
        (crawl_website env true base ty maxP).status = "success") := by
  intro p cur st hfail
  refine ⟨⟨?_, ?_⟩, ?_, processPage_pagesProcessed, ?_, crawl_status_success⟩
  · show st.allData ++ pageRecords p.ty cur (p.env cur) = _
    rw [hfail]
    rfl
  · show pageQueue p.domain p.ty cur (p.env cur) (cur :: st.visited) st.toVisit = st.toVisit
    rw [hfail]
    rfl
  · intro q c s pg hfa hb
    constructor
    · show s.allData ++ pageRecords q.ty c (q.env c) = _
      rw [hfa, pageRecords, if_pos hb]
    · show pageQueue q.domain q.ty c (q.env c) (c :: s.visited) s.toVisit = s.toVisit
      rw [hfa]
      rfl
  · intro c r s hq hp hv
    exact crawlLoop_process p c r s hq hp hv

theorem per_page_failure_recovery_witness :
    (processPage (mkParams envAllFail "beautify" "http://w.test" 2) "http://w.test"
        (initState "http://w.test")).allData =
      (initState "http://w.test").allData ++
        [PageRecord.failed "http://w.test" (crawlPageError "http://w.test")] :=
  (per_page_failure_recovery (mkParams envAllFail "beautify" "http://w.test" 2)
    "http://w.test" (initState "http://w.test") rfl).1.1

/-- C1, counterexample: when the seed carries a fragment, the same
normalized URL (fragment stripped, trailing slash stripped) can appear as the
url of two records of one crawl.  Crawling `http://a.test/page#f` whose page
links to `http://a.test/page` renders both keys — the seed is enqueued
without fragment stripping, the rediscovered link with it — and the two
records' urls share the normalization `http://a.test/page`. -/
theorem crawl_dedup_counterexample :
    (((crawl_website envFragDup true "http://a.test/page#f" "beautify" 5).data.getD []).map
        (fun r => normalizeLink (PageRecord.url r))) =
      ["http://a.test/page", "http://a.test/page"] ∧
    ¬ (["http://a.test/page", "http://a.test/page"] : List String).Nodup := by
  constructor
  · rw [crawl_website_ok,
      crawlLoop_run (mkParams envFragDup "beautify" "http://a.test/page#f" 5) 2
        (initState "http://a.test/page#f") _ rfl (Or.inl (by decide))]
    decide
  · decide

/-- C1, amended: provided the seed `base_url` contains no `'#'` (so the seed
key of line 186 is already normalized) and no page suffers a link-discovery
failure after its record was appended (which would append a second, error
record for the same URL), each normalized URL appears as the url of at most
one record: the normalized record urls of any crawl are pairwise distinct. -/
theorem crawl_dedup_normalized : ∀ (env : Env) (base ty : String) (maxP : Int),
    '#' ∉ base.toList →
    (∀ u pg, env u ≠ FetchResult.failAfter pg) →
    (((crawl_website env true base ty maxP).data.getD []).map
        (fun r => normalizeLink (PageRecord.url r))).Nodup := by
  intro env base ty maxP hfrag hnofa
  rw [crawl_website_ok]
  show (((crawlLoop (mkParams env ty base maxP) (initState base)).allData).map
    (fun r => normalizeLink (PageRecord.url r))).Nodup
  have hs := stateStrict_crawlLoop (mkParams env ty base maxP) hnofa (initState base)
    (stateStrict_init _ base hfrag)
  have hmap : ((crawlLoop (mkParams env ty base maxP) (initState base)).allData).map
      (fun r => normalizeLink (PageRecord.url r)) =
      ((crawlLoop (mkParams env ty base maxP) (initState base)).allData).map PageRecord.url :=
    List.map_congr_left (fun r hr => hs.dataNorm r hr)
  rw [hmap]
  exact hs.urlsNodup

theorem crawl_dedup_normalized_witness :
    (((crawl_website envAllFail true "http://w.test" "beautify" 3).data.getD []).map
        (fun r => normalizeLink (PageRecord.url r))).Nodup :=
  crawl_dedup_normalized envAllFail "http://w.test" "beautify" 3 (by decide)
    (fun u pg h => FetchResult.noConfusion h)

/-- C2, counterexample: the pages list can exceed `max_pages`.  When Selenium
link discovery raises after `all_data.append(page_data)` — the `except`
handler then appends a second, error record for the same URL — a beautify
crawl with `max_pages = 1` returns two records. -/
theorem crawl_budget_counterexample :
    ((crawl_website envLateFail true "http://a.test" "beautify" 1).data.getD []).length = 2 ∧
    ¬ (((crawl_website envLateFail true "http://a.test" "beautify" 1).data.getD []).length
        ≤ 1) := by
  have h : ((crawl_website envLateFail true "http://a.test" "beautify" 1).data.getD
      []).length = 2 := by
    rw [crawl_website_ok,
      crawlLoop_run (mkParams envLateFail "beautify" "http://a.test" 1) 1
        (initState "http://a.test") _ rfl (Or.inl (by decide))]
    decide
  refine ⟨h, ?_⟩
  rw [h]
  decide

/-- C2, amended: `pages_processed` never exceeds `max_pages`, and provided no
page suffers a link-discovery failure after its record was appended (each
processed page then contributes exactly one record), the returned pages list
has at most `max_pages` records; when the budget stops the crawl the status
is still `"success"`, never an error. -/
theorem crawl_budget_respected : ∀ (env : Env) (base ty : String) (maxP : Int),
    (∀ u pg, env u ≠ FetchResult.failAfter pg) →
    ((crawl_website env true base ty maxP).data.getD []).length ≤ maxP.toNat ∧
    (crawl_website env true base ty maxP).status = "success" := by
  intro env base ty maxP hnofa
  refine ⟨?_, crawl_status_success env base ty maxP⟩
  rw [crawl_website_ok]
  show ((crawlLoop (mkParams env ty base maxP) (initState base)).allData).length ≤ maxP.toNat
  have hs := stateCount_crawlLoop (mkParams env ty base maxP) hnofa (initState base)
    (stateCount_init _ base)
  rw [hs.countEq]
  have hb := hs.ppBound
  rw [show (mkParams env ty base maxP).maxPages = maxP from rfl] at hb
  rcases hb with h | h
  · omega
  · omega

theorem crawl_budget_respected_witness :
    ((crawl_website envAllFail true "http://w.test" "beautify" 3).data.getD []).length ≤
      (3 : Int).toNat ∧
    (crawl_website envAllFail true "http://w.test" "beautify" 3).status = "success" :=
  crawl_budget_respected envAllFail "http://w.test" "beautify" 3
    (fun u pg h => FetchResult.noConfusion h)

/-- C6, counterexample: in a raw-mode crawl a successfully rendered page's
record does not carry the rendered markup byte-for-byte: the crawl stores
`soup.prettify()`, a re-serialization of the parsed DOM with added newlines
and indentation, which differs from `driver.page_source` already on
`<p>hi</p>`. -/
theorem raw_mode_counterexample :
    (crawl_website envRawDemo true "http://a.test" "raw" 1).data =
      some [PageRecord.raw "http://a.test" "<p>\n hi\n</p>"] ∧
    pageRawDemo.source = "<p>hi</p>" ∧
    ("<p>\n hi\n</p>" : String) ≠ "<p>hi</p>" := by
  refine ⟨?_, rfl, by decide⟩
  rw [crawl_website_ok,
    crawlLoop_run (mkParams envRawDemo "raw" "http://a.test" 1) 1
      (initState "http://a.test") _ rfl (Or.inl (by decide))]
  decide

/-- C6, amended: in raw mode no Section extraction is performed, and the
rendered markup is returned verbatim only by the single-page scrape
(`driver.page_source`); every raw record of a crawl instead carries
`soup.prettify()` of the DOM the environment rendered for that URL, which
need not equal the rendered markup byte-for-byte. -/
theorem raw_mode_content :
    (∀ (env : Env) (url : String) (page : RenderedPage), env url = FetchResult.ok page →
        (scrape_website env true url "raw").data = some (ScrapeData.rawHtml page.source)) ∧
    (∀ (env : Env) (base ty : String) (maxP : Int) (u d : String),
        PageRecord.raw u d ∈ (crawl_website env true base ty maxP).data.getD [] →
        ∃ pg, (env u = FetchResult.ok pg ∨ env u = FetchResult.failAfter pg) ∧
          d = soupPrettify pg.dom) := by
  constructor
  · intro env url page h
    simp [scrape_website, scrape_website_traced, h]
  · intro env base ty maxP u d hmem
    exact (stateOK_crawlLoop (mkParams env ty base maxP) (rstripSlashes base)
      (initState base) (stateOK_init _ base)).rawOK u d hmem

theorem raw_mode_content_witness :
    (scrape_website envRawDemo true "http://a.test" "raw").data =
      some (ScrapeData.rawHtml pageRawDemo.source) :=
  raw_mode_content.1 envRawDemo "http://a.test" pageRawDemo rfl

end Scraper
